import Mathlib

/-!
Verification of the XML-to-dictionary converter in
`XML-Parsing/python_xml_examples.py` (`PythonXMLUtilities.xml_to_dict`,
inner function `xml_to_dict_recursive`).

The converter maps a parsed XML element tree to a generic structured value
(string / ordered string-keyed mapping / sequence).  We embed the element
tree, the structured-value type, the ordered-dictionary operations the
source relies on, and the converter itself, then prove the specified
properties of it.
-/

namespace XmlDict

/-- The structured values the converter produces: Python `str`, `dict`
(insertion-ordered, modelled as an association list) and `list`. -/
inductive Value where
  | str : String → Value
  | map : List (String × Value) → Value
  | list : List Value → Value
deriving Repr

/-- A parsed XML element: tag name, ordered attribute mapping, optional
direct text, ordered child elements (`xml.etree.ElementTree.Element`). -/
inductive Element where
  | mk : String → List (String × String) → Option String → List Element → Element
deriving Repr

def Element.tag : Element → String
  | .mk t _ _ _ => t

def Element.attrib : Element → List (String × String)
  | .mk _ a _ _ => a

def Element.text : Element → Option String
  | .mk _ _ tx _ => tx

def Element.children : Element → List Element
  | .mk _ _ _ cs => cs

/-- Python `str.strip()` with no arguments: drop leading and trailing
whitespace characters. -/
def pyStrip (s : String) : String :=
  String.mk (((s.data.dropWhile Char.isWhitespace).reverse.dropWhile Char.isWhitespace).reverse)

/-- `element.text and element.text.strip()` in the source collapses an
absent, empty or whitespace-only text to the empty string; otherwise it
yields the stripped text. -/
def strippedText : Option String → String
  | none => ""
  | some s => pyStrip s

/-- The attribute dictionary stored under `"@attributes"`: a mapping of
attribute name to attribute value string
(`result['@attributes'] = element.attrib`). -/
def attribsValue (attrib : List (String × String)) : Value :=
  Value.map (attrib.map (fun p => (p.1, Value.str p.2)))

/-- Python dict lookup `result[k]` (and membership `k in result`) on the
insertion-ordered association list. -/
def dictGet (d : List (String × Value)) (k : String) : Option Value :=
  match d with
  | [] => none
  | (k', v) :: rest => if k' = k then some v else dictGet rest k

/-- Python dict assignment `result[k] = v`: replaces in place when the key
is present (keeping its position), otherwise appends at the end. -/
def dictSet (d : List (String × Value)) (k : String) (v : Value) : List (String × Value) :=
  match d with
  | [] => [(k, v)]
  | (k', v') :: rest => if k' = k then (k, v) :: rest else (k', v') :: dictSet rest k v

/-- `isinstance(x, list)`. -/
def Value.isList : Value → Bool
  | .list _ => true
  | _ => false

def Value.isMap : Value → Bool
  | .map _ => true
  | _ => false

/-- One iteration of the child loop in `xml_to_dict_recursive`:

    if child.tag in result:
        if not isinstance(result[child.tag], list):
            result[child.tag] = [result[child.tag]]
        result[child.tag].append(child_data)
    else:
        result[child.tag] = child_data
-/
def addChild (result : List (String × Value)) (tag : String) (child_data : Value) :
    List (String × Value) :=
  match dictGet result tag with
  | some v =>
      match v with
      | Value.list vs => dictSet result tag (Value.list (vs ++ [child_data]))
      | _ => dictSet result tag (Value.list [v, child_data])
  | none => dictSet result tag child_data

/-- The dictionary `result` just before the child loop: `result = {}`, then
`result['@attributes'] = element.attrib` when `element.attrib` is truthy,
then `result['text'] = element.text.strip()` when the stripped text is
non-empty (the no-children early return is handled by the caller). -/
def initDict (attrib : List (String × String)) (t : String) : List (String × Value) :=
  let r0 : List (String × Value) :=
    if attrib = [] then [] else [("@attributes", attribsValue attrib)]
  if t = "" then r0 else dictSet r0 "text" (Value.str t)

mutual

/-- `xml_to_dict_recursive(element)` from the source: a leaf (no children)
with non-empty stripped text returns the text itself; otherwise the result
is the dictionary built from attributes, text and the child loop. -/
def xml_to_dict_recursive : Element → Value
  | .mk _tag attrib text children =>
    let t := strippedText text
    if t ≠ "" ∧ children.isEmpty then
      Value.str t
    else
      Value.map (addChildren (initDict attrib t) children)
termination_by structural e => e

/-- The `for child in element:` loop, threading the `result` dictionary. -/
def addChildren (acc : List (String × Value)) : List Element → List (String × Value)
  | [] => acc
  | c :: rest => addChildren (addChild acc (Element.tag c) (xml_to_dict_recursive c)) rest
termination_by structural cs => cs

end

/-- The top level of `xml_to_dict`:
`xml_dict = {root.tag: xml_to_dict_recursive(root)}`. -/
def xml_to_dict (root : Element) : Value :=
  Value.map [(Element.tag root, xml_to_dict_recursive root)]

/-- The children of an element that carry a given tag name, in document
order. -/
def childrenWithTag (N : String) (cs : List Element) : List Element :=
  cs.filter (fun c => Element.tag c = N)

/-- The effect of one `addChild` step on the value stored under the key
being added: a first occurrence is stored directly, an existing non-list
value is wrapped into a two-element list, an existing list is appended to. -/
def combineOne (o : Option Value) (v : Value) : Option Value :=
  match o with
  | none => some v
  | some w =>
      match w with
      | Value.list vs => some (Value.list (vs ++ [v]))
      | _ => some (Value.list [w, v])

/-- Folding `combineOne` over a sequence of child values. -/
def combine (o : Option Value) (vs : List Value) : Option Value :=
  vs.foldl combineOne o

/-- `v` is stored under key `k` of `d`: either directly, or as a member of
the list stored there. -/
def storedUnder (d : List (String × Value)) (k : String) (v : Value) : Prop :=
  dictGet d k = some v ∨ ∃ vs, dictGet d k = some (Value.list vs) ∧ v ∈ vs

mutual

/-- Depth of an element tree: 1 for the node plus the maximal depth of a
child subtree. -/
def Element.depth : Element → Nat
  | .mk _ _ _ cs => 1 + depthList cs
termination_by structural e => e

def depthList : List Element → Nat
  | [] => 0
  | c :: rest => max (Element.depth c) (depthList rest)
termination_by structural cs => cs

end

/-- The child loop of the fuel-bounded converter: fails as soon as one
recursive call runs out of fuel. -/
def addChildrenWith (f : Element → Option Value) (acc : List (String × Value)) :
    List Element → Option (List (String × Value))
  | [] => some acc
  | c :: rest =>
      match f c with
      | none => none
      | some v => addChildrenWith f (addChild acc (Element.tag c) v) rest

/-- The converter instrumented with a recursion-depth budget: each nested
recursive call consumes one unit of fuel, and the conversion fails
(`none`) when the budget is exhausted. -/
def convertFuel : Nat → Element → Option Value
  | 0, _ => none
  | n + 1, .mk _tag attrib text children =>
      let t := strippedText text
      if t ≠ "" ∧ children.isEmpty then some (Value.str t)
      else Option.map Value.map (addChildrenWith (convertFuel n) (initDict attrib t) children)

mutual

/-- The converter with an explicit state parameter threaded through every
step, in the order in which the source visits the tree: the converter
reads and writes nothing outside its local `result`, so the state
component is passed through untouched. -/
def convertSt {σ : Type} : Element → σ → Value × σ
  | .mk _tag attrib text children, s =>
      let t := strippedText text
      if t ≠ "" ∧ children.isEmpty then (Value.str t, s)
      else
        let p := addChildrenSt (initDict attrib t) children s
        (Value.map p.1, p.2)
termination_by structural e => e

def addChildrenSt {σ : Type} (acc : List (String × Value)) :
    List Element → σ → List (String × Value) × σ
  | [], s => (acc, s)
  | c :: rest, s =>
      let q := convertSt c s
      addChildrenSt (addChild acc (Element.tag c) q.1) rest q.2
termination_by structural cs => cs

end

theorem dictGet_dictSet_self (d : List (String × Value)) (k : String) (v : Value) :
    dictGet (dictSet d k v) k = some v := by
  induction d with
  | nil => simp [dictSet, dictGet]
  | cons p rest ih =>
      obtain ⟨k', v'⟩ := p
      by_cases h : k' = k <;> simp [dictSet, dictGet, h, ih]

theorem dictGet_dictSet_ne (d : List (String × Value)) (k k' : String) (v : Value)
    (h : k' ≠ k) : dictGet (dictSet d k v) k' = dictGet d k' := by
  induction d with
  | nil => simp [dictSet, dictGet, Ne.symm h]
  | cons p rest ih =>
      obtain ⟨k₀, v₀⟩ := p
      by_cases h0 : k₀ = k
      · simp [dictSet, dictGet, h0, Ne.symm h]
      · simp [dictSet, dictGet, h0, ih]

theorem dictGet_addChild_self (d : List (String × Value)) (k : String) (v : Value) :
    dictGet (addChild d k v) k = combineOne (dictGet d k) v := by
  cases h : dictGet d k with
  | none => simp [addChild, h, combineOne, dictGet_dictSet_self]
  | some w => cases w <;> simp [addChild, h, combineOne, dictGet_dictSet_self]

theorem dictGet_addChild_ne (d : List (String × Value)) (k k' : String) (v : Value)
    (h : k' ≠ k) : dictGet (addChild d k v) k' = dictGet d k' := by
  cases hg : dictGet d k with
  | none => simp [addChild, hg, dictGet_dictSet_ne _ _ _ _ h]
  | some w => cases w <;> simp [addChild, hg, dictGet_dictSet_ne _ _ _ _ h]

theorem combine_nil (o : Option Value) : combine o [] = o := rfl

theorem combine_cons (o : Option Value) (v : Value) (vs : List Value) :
    combine o (v :: vs) = combine (combineOne o v) vs := rfl

/-- The key lemma about the child loop: the value finally stored under any
key `K` is determined by the value stored there before the loop and the
converted children whose tag is `K`, in document order. -/
theorem dictGet_addChildren (cs : List Element) (acc : List (String × Value)) (K : String) :
    dictGet (addChildren acc cs) K
      = combine (dictGet acc K) ((childrenWithTag K cs).map xml_to_dict_recursive) := by
  induction cs generalizing acc with
  | nil => simp [addChildren, childrenWithTag, combine_nil]
  | cons c rest ih =>
      by_cases h : Element.tag c = K
      · rw [addChildren, ih]
        simp [childrenWithTag, h, combine_cons, ← dictGet_addChild_self, h]
      · rw [addChildren, ih]
        simp [childrenWithTag, h, dictGet_addChild_ne _ _ _ _ (fun hh => h hh.symm)]

/-- The converter never returns a `list` at the top level: both return
statements produce a string or a dictionary. -/
theorem convert_isList_false (e : Element) :
    Value.isList (xml_to_dict_recursive e) = false := by
  obtain ⟨tag, attrib, text, children⟩ := e
  rw [xml_to_dict_recursive]
  split <;> simp [Value.isList]

/-- Unfolding the converter in the non-leaf-text case. -/
theorem convert_eq_map (tag : String) (attrib : List (String × String))
    (text : Option String) (children : List Element)
    (h : ¬(strippedText text ≠ "" ∧ children.isEmpty)) :
    xml_to_dict_recursive (Element.mk tag attrib text children)
      = Value.map (addChildren (initDict attrib (strippedText text)) children) := by
  rw [xml_to_dict_recursive]
  simp only [h, if_false, if_neg h]

theorem combine_some_list (vs : List Value) (ws : List Value) :
    combine (some (Value.list ws)) vs = some (Value.list (ws ++ vs)) := by
  induction vs generalizing ws with
  | nil => simp [combine_nil]
  | cons v rest ih => simp [combine_cons, combineOne, ih]

theorem combine_none_singleton (v : Value) : combine none [v] = some v := rfl

/-- With nothing stored beforehand and at least two occurrences, the loop
builds exactly the list of values in order (the first value must not
itself be a list, which holds for every converter output). -/
theorem combine_none_two (v₁ v₂ : Value) (rest : List Value)
    (h : Value.isList v₁ = false) :
    combine none (v₁ :: v₂ :: rest) = some (Value.list (v₁ :: v₂ :: rest)) := by
  rw [combine_cons, combineOne, combine_cons]
  cases v₁ <;> simp [Value.isList] at h ⊢ <;> rw [combineOne] <;>
    simp [combine_some_list]

theorem dictGet_initDict_attrs (attrib : List (String × String)) (t : String)
    (h : attrib ≠ []) :
    dictGet (initDict attrib t) "@attributes" = some (attribsValue attrib) := by
  by_cases ht : t = "" <;>
    simp [initDict, ht, h, dictGet, dictSet]

theorem dictGet_initDict_text (attrib : List (String × String)) (t : String)
    (h : t ≠ "") :
    dictGet (initDict attrib t) "text" = some (Value.str t) := by
  by_cases ha : attrib = [] <;>
    simp [initDict, ha, h, dictGet, dictSet, dictGet_dictSet_self]

theorem dictGet_initDict_none (attrib : List (String × String)) (t : String) (N : String)
    (hT : N = "text" → t = "") (hA : N = "@attributes" → attrib = []) :
    dictGet (initDict attrib t) N = none := by
  by_cases ha : attrib = [] <;> by_cases ht : t = ""
  · simp [initDict, ha, ht, dictGet]
  · have h1 : ¬("text" = N) := fun h => ht (hT h.symm)
    simp [initDict, ha, ht, dictGet, dictSet, h1]
  · have h2 : ¬("@attributes" = N) := fun h => ha (hA h.symm)
    simp [initDict, ha, ht, dictGet, h2]
  · have h1 : ¬("text" = N) := fun h => ht (hT h.symm)
    have h2 : ¬("@attributes" = N) := fun h => ha (hA h.symm)
    simp [initDict, ha, ht, dictGet, dictSet, h1, h2]

theorem combineOne_stores (o : Option Value) (v : Value) :
    combineOne o v = some v ∨ ∃ ws, combineOne o v = some (Value.list ws) ∧ v ∈ ws := by
  cases o with
  | none => exact Or.inl rfl
  | some w =>
      cases w with
      | list vs => exact Or.inr ⟨vs ++ [v], rfl, by simp⟩
      | str s => exact Or.inr ⟨[Value.str s, v], rfl, by simp⟩
      | map d => exact Or.inr ⟨[Value.map d, v], rfl, by simp⟩

theorem combineOne_preserves (o : Option Value) (v v' : Value)
    (h : Value.isList v = false)
    (hst : o = some v ∨ ∃ ws, o = some (Value.list ws) ∧ v ∈ ws) :
    combineOne o v' = some v ∨ ∃ ws, combineOne o v' = some (Value.list ws) ∧ v ∈ ws := by
  rcases hst with hv | ⟨ws, ho, hmem⟩
  · subst hv
    cases v with
    | list vs => simp [Value.isList] at h
    | str s => exact Or.inr ⟨[Value.str s, v'], rfl, by simp⟩
    | map d => exact Or.inr ⟨[Value.map d, v'], rfl, by simp⟩
  · subst ho
    exact Or.inr ⟨ws ++ [v'], rfl, by simp [hmem]⟩

theorem combine_preserves (vs' : List Value) (o : Option Value) (v : Value)
    (h : Value.isList v = false)
    (hst : o = some v ∨ ∃ ws, o = some (Value.list ws) ∧ v ∈ ws) :
    combine o vs' = some v ∨ ∃ ws, combine o vs' = some (Value.list ws) ∧ v ∈ ws := by
  induction vs' generalizing o with
  | nil => simpa [combine_nil] using hst
  | cons v' rest ih =>
      rw [combine_cons]
      exact ih _ (combineOne_preserves o v v' h hst)

/-- Every value fed to the loop under some key remains stored under that
key at the end (directly or inside the accumulated list). -/
theorem combine_mem_stores (vs : List Value) (o : Option Value) (v : Value)
    (h : Value.isList v = false) (hmem : v ∈ vs) :
    combine o vs = some v ∨ ∃ ws, combine o vs = some (Value.list ws) ∧ v ∈ ws := by
  induction vs generalizing o with
  | nil => cases hmem
  | cons v' rest ih =>
      rcases List.mem_cons.mp hmem with hv | hv
      · subst hv
        rw [combine_cons]
        exact combine_preserves rest _ v h (combineOne_stores o v)
      · rw [combine_cons]
        exact ih (combineOne o v') hv

theorem depth_pos (e : Element) : 1 ≤ Element.depth e := by
  obtain ⟨tag, attrib, text, children⟩ := e
  rw [Element.depth]
  omega

theorem depth_le_depthList (c : Element) (cs : List Element) (h : c ∈ cs) :
    Element.depth c ≤ depthList cs := by
  induction cs with
  | nil => cases h
  | cons c' rest ih =>
      rw [depthList]
      rcases List.mem_cons.mp h with hc | hc
      · subst hc; exact Nat.le_max_left _ _
      · exact Nat.le_trans (ih hc) (Nat.le_max_right _ _)

/-- A recursion budget equal to the tree depth suffices: the instrumented
converter completes and agrees with the total one. -/
theorem convertFuel_complete (n : Nat) (e : Element) (h : Element.depth e ≤ n) :
    convertFuel n e = some (xml_to_dict_recursive e) := by
  induction n generalizing e with
  | zero => exact absurd (Nat.le_trans (depth_pos e) h) (by omega)
  | succ n ih =>
      obtain ⟨tag, attrib, text, children⟩ := e
      rw [Element.depth] at h
      have hcs : ∀ c ∈ children, Element.depth c ≤ n := by
        intro c hc
        have := depth_le_depthList c children hc
        omega
      have aux : ∀ (cs : List Element), (∀ c ∈ cs, Element.depth c ≤ n) →
          ∀ (acc : List (String × Value)),
          addChildrenWith (convertFuel n) acc cs = some (addChildren acc cs) := by
        intro cs
        induction cs with
        | nil => intro _ acc; rw [addChildrenWith, addChildren]
        | cons c rest ihr =>
            intro hall acc
            rw [addChildrenWith, ih c (hall c (by simp)), addChildren]
            exact ihr (fun c' hc' => hall c' (by simp [hc'])) _
      rw [convertFuel, xml_to_dict_recursive]
      split
      · rfl
      · rw [aux children hcs]
        rfl

/-- The state-threaded converter returns exactly the pure converter value
and passes the state through unchanged. -/
theorem convertSt_pure {σ : Type} (e : Element) (s : σ) :
    convertSt e s = (xml_to_dict_recursive e, s) := by
  have main : ∀ (n : Nat) (e : Element), Element.depth e ≤ n → ∀ (s : σ),
      convertSt e s = (xml_to_dict_recursive e, s) := by
    intro n
    induction n with
    | zero => intro e h; exact absurd (Nat.le_trans (depth_pos e) h) (by omega)
    | succ n ih =>
        intro e h s
        obtain ⟨tag, attrib, text, children⟩ := e
        rw [Element.depth] at h
        have hcs : ∀ c ∈ children, Element.depth c ≤ n := by
          intro c hc
          have := depth_le_depthList c children hc
          omega
        have aux : ∀ (cs : List Element), (∀ c ∈ cs, Element.depth c ≤ n) →
            ∀ (acc : List (String × Value)) (s' : σ),
            addChildrenSt acc cs s' = (addChildren acc cs, s') := by
          intro cs
          induction cs with
          | nil => intro _ acc s'; rw [addChildrenSt, addChildren]
          | cons c rest ihr =>
              intro hall acc s'
              rw [addChildrenSt, addChildren, ih c (hall c (by simp)) s']
              exact ihr (fun c' hc' => hall c' (by simp [hc'])) _ _
        rw [convertSt, xml_to_dict_recursive]
        split
        · rfl
        · rw [aux children hcs]
  exact main (Element.depth e) e (Nat.le_refl _) s

/-- Claim C3: for every Element with no attributes, no child elements, and
non-empty stripped text T, convert returns exactly the string T (a scalar,
not a mapping). -/
theorem C3_leaf_collapses_to_text (tag : String) (text : Option String)
    (h : strippedText text ≠ "") :
    xml_to_dict_recursive (Element.mk tag [] text []) = Value.str (strippedText text) := by
  rw [xml_to_dict_recursive]
  rw [if_pos ⟨h, rfl⟩]

/-- Witness for C3 at the leaf `<title> Clean Code </title>`. -/
theorem C3_witness :
    strippedText (some " Clean Code ") ≠ "" ∧
    xml_to_dict_recursive (Element.mk "title" [] (some " Clean Code ") [])
      = Value.str "Clean Code" :=
  ⟨by decide, by rw [C3_leaf_collapses_to_text "title" (some " Clean Code ") (by decide)]; rfl⟩

/-- Claim C6: the top-level conversion result is a mapping with exactly
one key, the root tag name, whose value is the converted root element. -/
theorem C6_top_level_single_key (root : Element) :
    ∃ d, xml_to_dict root = Value.map d ∧
      d.map Prod.fst = [Element.tag root] ∧
      dictGet d (Element.tag root) = some (xml_to_dict_recursive root) :=
  ⟨[(Element.tag root, xml_to_dict_recursive root)], rfl, by simp, by simp [dictGet]⟩

/-- Claim C7: the converter is total over every finite Element tree and
terminates with recursion depth bounded by the depth of the tree: a fuel
budget of the tree depth already makes the instrumented converter return
the (total) conversion result. -/
theorem C7_total_terminates (n : Nat) (e : Element) (h : Element.depth e ≤ n) :
    convertFuel n e = some (xml_to_dict_recursive e) :=
  convertFuel_complete n e h

/-- Witness for C7 on a depth-2 tree. -/
theorem C7_witness :
    Element.depth (Element.mk "lib" [] none [Element.mk "b" [] (some "x") []]) ≤ 2 ∧
    convertFuel 2 (Element.mk "lib" [] none [Element.mk "b" [] (some "x") []])
      = some (xml_to_dict_recursive (Element.mk "lib" [] none [Element.mk "b" [] (some "x") []])) :=
  ⟨by decide, C7_total_terminates 2 _ (by decide)⟩

/-- Claim C8: conversion is a pure, deterministic function of the input
tree: threading an arbitrary state through the traversal changes nothing,
the state comes back untouched, and the value is exactly the one the pure
converter computes, so two runs on the same tree agree. -/
theorem C8_pure_deterministic (σ : Type) (e : Element) (s : σ) :
    convertSt e s = (xml_to_dict_recursive e, s) :=
  convertSt_pure e s

/-- Claim C9: a leaf with no attributes and absent or whitespace-only text
converts to an empty mapping. -/
theorem C9_empty_leaf (tag : String) (text : Option String)
    (h : strippedText text = "") :
    xml_to_dict_recursive (Element.mk tag [] text []) = Value.map [] := by
  rw [convert_eq_map _ _ _ _ (by simp [h])]
  rw [addChildren]
  simp [initDict, h]

/-- Witness for C9 at a leaf with whitespace-only text. -/
theorem C9_witness :
    strippedText (some "  ") = "" ∧
    xml_to_dict_recursive (Element.mk "a" [] (some "  ") []) = Value.map [] :=
  ⟨by decide, C9_empty_leaf "a" (some "  ") (by decide)⟩

/-- Claim C10: the converter always returns a scalar string or a mapping,
never a sequence at the top level (which keeps the `isinstance(..., list)`
check during repeated-tag promotion unambiguous). -/
theorem C10_never_list (e : Element) :
    ((∃ s, xml_to_dict_recursive e = Value.str s) ∨
      (∃ d, xml_to_dict_recursive e = Value.map d)) ∧
    Value.isList (xml_to_dict_recursive e) = false := by
  refine ⟨?_, convert_isList_false e⟩
  cases hv : xml_to_dict_recursive e with
  | str s => exact Or.inl ⟨s, rfl⟩
  | map d => exact Or.inr ⟨d, rfl⟩
  | list vs =>
      have hl := convert_isList_false e
      rw [hv] at hl
      simp [Value.isList] at hl

/-- Counterexample to claim C1 as stated: the leaf `<b id="1">hi</b>` has
one attribute and non-empty text, yet convert returns the plain string
`"hi"` and not a mapping, so no `"@attributes"` entry exists (the source
hits `return element.text.strip()` before attributes can matter). -/
theorem C1_counterexample :
    xml_to_dict_recursive (Element.mk "b" [("id", "1")] (some "hi") []) = Value.str "hi" ∧
    Value.isMap (xml_to_dict_recursive (Element.mk "b" [("id", "1")] (some "hi") [])) = false :=
  ⟨rfl, rfl⟩

/-- Claim C1 (amended): for a leaf with at least one attribute, when the
stripped text is empty the result is the mapping holding only
`"@attributes"`; when the stripped text is non-empty the result is the
text string itself and the attributes are dropped. -/
theorem C1_attrs_leaf (tag : String) (attrib : List (String × String))
    (text : Option String) (hA : attrib ≠ []) :
    (strippedText text = "" →
      xml_to_dict_recursive (Element.mk tag attrib text [])
        = Value.map [("@attributes", attribsValue attrib)]) ∧
    (strippedText text ≠ "" →
      xml_to_dict_recursive (Element.mk tag attrib text [])
        = Value.str (strippedText text)) := by
  constructor
  · intro ht
    rw [convert_eq_map _ _ _ _ (by simp [ht])]
    rw [addChildren]
    simp [initDict, ht, hA]
  · intro ht
    rw [xml_to_dict_recursive]
    rw [if_pos ⟨ht, rfl⟩]

/-- Witness for the amended C1: `<b id="1"/>` (no text) keeps its
attributes, `<b id="1">hi</b>` collapses to the string. -/
theorem C1_witness :
    ([("id", "1")] : List (String × String)) ≠ [] ∧
    xml_to_dict_recursive (Element.mk "b" [("id", "1")] none [])
      = Value.map [("@attributes", attribsValue [("id", "1")])] ∧
    xml_to_dict_recursive (Element.mk "b" [("id", "1")] (some "hi") [])
      = Value.str (strippedText (some "hi")) :=
  ⟨by simp,
    (C1_attrs_leaf "b" [("id", "1")] none (by simp)).1 rfl,
    (C1_attrs_leaf "b" [("id", "1")] (some "hi") (by simp)).2 (by decide)⟩

/-- Counterexample to claim C2 as stated: in
`<a>hello<text>x</text><text>y</text></a>` the two children share the tag
name `text`, but the sequence stored under `"text"` has length 3, not 2:
the stripped direct text `"hello"` was already stored under that key and
the first repeated child wrongly promotes it into the list. -/
theorem C2_counterexample :
    xml_to_dict_recursive (Element.mk "a" [] (some "hello")
        [Element.mk "text" [] (some "x") [], Element.mk "text" [] (some "y") []])
      = Value.map [("text", Value.list [Value.str "hello", Value.str "x", Value.str "y"])] ∧
    Value.list [Value.str "hello", Value.str "x", Value.str "y"]
      ≠ Value.list [Value.str "x", Value.str "y"] :=
  ⟨rfl, by simp⟩

/-- Claim C2 (amended): for k ≥ 2 children sharing the tag name N, in
document order, convert maps N to the sequence of the k converted
children, provided N does not collide with a key stored before the child
loop (N is not `"text"` while the stripped text is non-empty, and N is not
`"@attributes"` while attributes are present). -/
theorem C2_repeated_tags (tag N : String) (attrib : List (String × String))
    (text : Option String) (children : List Element)
    (hk : 2 ≤ (childrenWithTag N children).length)
    (hT : N = "text" → strippedText text = "")
    (hA : N = "@attributes" → attrib = []) :
    ∃ d, xml_to_dict_recursive (Element.mk tag attrib text children) = Value.map d ∧
      dictGet d N = some (Value.list ((childrenWithTag N children).map xml_to_dict_recursive)) := by
  have hne : children ≠ [] := by
    intro hc
    rw [hc] at hk
    simp [childrenWithTag] at hk
  rw [convert_eq_map _ _ _ _ (by simp [List.isEmpty_iff, hne])]
  refine ⟨_, rfl, ?_⟩
  rw [dictGet_addChildren, dictGet_initDict_none _ _ _ hT hA]
  cases hcw : childrenWithTag N children with
  | nil => rw [hcw] at hk; simp at hk
  | cons c₁ rest₁ =>
      cases rest₁ with
      | nil => rw [hcw] at hk; simp at hk
      | cons c₂ rest =>
          simp only [List.map]
          exact combine_none_two _ _ _ (convert_isList_false c₁)

/-- Witness for the amended C2: a `library` with two `book` children. -/
theorem C2_witness :
    2 ≤ (childrenWithTag "book"
        [Element.mk "book" [] (some "A") [], Element.mk "book" [] (some "B") []]).length ∧
    ∃ d, xml_to_dict_recursive (Element.mk "library" [] none
        [Element.mk "book" [] (some "A") [], Element.mk "book" [] (some "B") []])
      = Value.map d ∧
      dictGet d "book" = some (Value.list ((childrenWithTag "book"
        [Element.mk "book" [] (some "A") [], Element.mk "book" [] (some "B") []]).map
          xml_to_dict_recursive)) :=
  ⟨by decide,
    C2_repeated_tags "library" "book" [] none
      [Element.mk "book" [] (some "A") [], Element.mk "book" [] (some "B") []]
      (by decide) (fun h => absurd h (by decide)) (fun h => absurd h (by decide))⟩

/-- Counterexample to claim C4 as stated: `<a>hello<text>world</text></a>`
has a child and non-empty stripped direct text `"hello"`, but the value
stored under the key `"text"` is not that text: the child named `text`
promoted it into a two-element sequence. -/
theorem C4_counterexample :
    xml_to_dict_recursive (Element.mk "a" [] (some "hello")
        [Element.mk "text" [] (some "world") []])
      = Value.map [("text", Value.list [Value.str "hello", Value.str "world"])] ∧
    dictGet [("text", Value.list [Value.str "hello", Value.str "world"])] "text"
      ≠ some (Value.str "hello") :=
  ⟨rfl, by simp [dictGet]⟩

/-- Claim C4 (amended): for an element with at least one child the result
is a mapping; when no child is named `text`, a non-empty stripped direct
text sits under the `"text"` key; and every child has its converted value
stored under its tag name, either directly or inside the sequence
accumulated for a repeated tag. -/
theorem C4_with_children (tag : String) (attrib : List (String × String))
    (text : Option String) (children : List Element) (hc : children ≠ []) :
    ∃ d, xml_to_dict_recursive (Element.mk tag attrib text children) = Value.map d ∧
      ((∀ c ∈ children, Element.tag c ≠ "text") → strippedText text ≠ "" →
        dictGet d "text" = some (Value.str (strippedText text))) ∧
      (∀ c ∈ children, storedUnder d (Element.tag c) (xml_to_dict_recursive c)) := by
  rw [convert_eq_map _ _ _ _ (by simp [List.isEmpty_iff, hc])]
  refine ⟨_, rfl, ?_, ?_⟩
  · intro hnt ht
    have hfil : childrenWithTag "text" children = [] := by
      simp only [childrenWithTag, List.filter_eq_nil_iff]
      intro c hcm
      simpa using hnt c hcm
    rw [dictGet_addChildren, hfil]
    simp only [List.map_nil, combine_nil]
    exact dictGet_initDict_text _ _ ht
  · intro c hcm
    rw [storedUnder, dictGet_addChildren]
    refine combine_mem_stores _ _ _ (convert_isList_false c) ?_
    exact List.mem_map_of_mem _ (by simp [childrenWithTag, List.mem_filter, hcm])

/-- Witness for the amended C4 at
`<book id="1"><title>Clean Code</title></book>`. -/
theorem C4_witness :
    ([Element.mk "title" [] (some "Clean Code") []] : List Element) ≠ [] ∧
    ∃ d, xml_to_dict_recursive (Element.mk "book" [("id", "1")] none
        [Element.mk "title" [] (some "Clean Code") []]) = Value.map d ∧
      ((∀ c ∈ [Element.mk "title" [] (some "Clean Code") []], Element.tag c ≠ "text") →
        strippedText none ≠ "" →
        dictGet d "text" = some (Value.str (strippedText none))) ∧
      (∀ c ∈ [Element.mk "title" [] (some "Clean Code") []],
        storedUnder d (Element.tag c) (xml_to_dict_recursive c)) :=
  ⟨by simp,
    C4_with_children "book" [("id", "1")] none
      [Element.mk "title" [] (some "Clean Code") []] (by simp)⟩

/-- Counterexample to claim C5 as stated: in `<a>hi<text>w</text></a>` the
single child named `text` is unique under its tag name, yet the value
stored under `"text"` is a two-element sequence, not the converted child
`"w"`, because the direct text `"hi"` was stored there first. -/
theorem C5_counterexample :
    xml_to_dict_recursive (Element.mk "a" [] (some "hi")
        [Element.mk "text" [] (some "w") []])
      = Value.map [("text", Value.list [Value.str "hi", Value.str "w"])] ∧
    xml_to_dict_recursive (Element.mk "text" [] (some "w") []) = Value.str "w" ∧
    dictGet [("text", Value.list [Value.str "hi", Value.str "w"])] "text"
      ≠ some (Value.str "w") :=
  ⟨rfl, rfl, by simp [dictGet]⟩

/-- Claim C5 (amended): when exactly one child C carries the tag name N
and N does not collide with a key stored before the child loop (N is not
`"text"` while the stripped text is non-empty, and N is not
`"@attributes"` while attributes are present), convert stores the plain
value convert(C) under N, not a one-element sequence. -/
theorem C5_single_child (tag N : String) (attrib : List (String × String))
    (text : Option String) (children : List Element) (C : Element)
    (hone : childrenWithTag N children = [C])
    (hT : N = "text" → strippedText text = "")
    (hA : N = "@attributes" → attrib = []) :
    ∃ d, xml_to_dict_recursive (Element.mk tag attrib text children) = Value.map d ∧
      dictGet d N = some (xml_to_dict_recursive C) := by
  have hne : children ≠ [] := by
    intro hc
    rw [hc] at hone
    simp [childrenWithTag] at hone
  rw [convert_eq_map _ _ _ _ (by simp [List.isEmpty_iff, hne])]
  refine ⟨_, rfl, ?_⟩
  rw [dictGet_addChildren, dictGet_initDict_none _ _ _ hT hA, hone]
  simp only [List.map]
  exact combine_none_singleton _

/-- Witness for the amended C5: `<book><title>T</title></book>` stores the
converted `title` child directly. -/
theorem C5_witness :
    childrenWithTag "title" [Element.mk "title" [] (some "T") []]
      = [Element.mk "title" [] (some "T") []] ∧
    ∃ d, xml_to_dict_recursive (Element.mk "book" [] none
        [Element.mk "title" [] (some "T") []]) = Value.map d ∧
      dictGet d "title" = some (xml_to_dict_recursive (Element.mk "title" [] (some "T") [])) :=
  ⟨rfl,
    C5_single_child "book" "title" [] none
      [Element.mk "title" [] (some "T") []] (Element.mk "title" [] (some "T") [])
      rfl (fun h => absurd h (by decide)) (fun h => absurd h (by decide))⟩

end XmlDict
